import Mathlib

/-!
Verification of the SmtpAuth client extension (src/src/Client.cpp).

The C++ class `SmtpAuth::Client` is shallowly embedded here.  External
collaborators (the SASL mechanism objects, the base64 codec, the
diagnostics sink and the host SMTP engine) are modelled at their
boundary: calls out to them are recorded as events in a trace, the
base64 encoder/decoder are abstract string functions passed as
parameters, and a mechanism implementation is a record of its
observable behaviour (its initial response and its Proceed function)
tagged with an identity.
-/

namespace SmtpAuth

/-- Boundary model of a `Sasl::Client::Mechanism` implementation object:
an identity (standing for the C++ object identity of the shared pointer),
the value returned by `GetInitialResponse`, and the `Proceed` function. -/
structure MechImpl where
  id : Nat
  getInitialResponse : String
  proceed : String → String

/-- One registered SASL mechanism, as in the anonymous-namespace struct
`Mechanism` of Client.cpp: an implementation and a rank (C++ `int`,
modelled as `Int`). -/
structure Mechanism where
  impl : MechImpl
  rank : Int

/-- The protocol stages of the external `Smtp::Client` engine that the
test suite exercises; only `readyToSend` is distinguished by the code. -/
inductive ProtocolStage where
  | greeting
  | helloResponse
  | options
  | readyToSend
  | declaringSender
  | declaringRecipients
  | sendingData
  | awaitingSendResponse
deriving DecidableEq

/-- The message context handed to the extension by the host engine. -/
structure MessageContext where
  protocolStage : ProtocolStage

/-- A parsed server response, as in `Smtp::Client::ParsedMessage`. -/
structure ParsedMessage where
  code : Int
  text : String
  last : Bool

/-- The external diagnostics library's distinguished warning level
(`SystemAbstractions::DiagnosticsSender::Levels::WARNING`), a fixed
constant higher than the informational level 0. -/
def DiagWarningLevel : Nat := 250

/-- Observable effects of the extension on its collaborators: messages
sent to the server, completion notifications, published diagnostics, and
calls into mechanism objects and the diagnostics subscription. -/
inductive Event where
  | sendMessage (data : String)
  | stageComplete (success : Bool)
  | diag (level : Nat) (text : String)
  | mechReset (id : Nat)
  | mechSetCredentials (id : Nat) (credentials authenticationIdentity authorizationIdentity : String)
  | mechProceed (id : Nat) (challenge : String)
  | unsubscribeDiag
  | subscribeDiag (id : Nat)
deriving DecidableEq

/-- The private state of `SmtpAuth::Client::Impl`.  The stored callbacks
are modelled as opaque tokens (`Option Nat`, `none` meaning the empty
`std::function`); `hasUnsubDelegate` models whether
`selectedMechDiagnosticsUnsubscribeDelegate` is non-null. -/
structure ClientState where
  mechs : List (String × Mechanism)
  supportedMechs : List String
  selectedMech : Option MechImpl
  selectedMechName : String
  hasUnsubDelegate : Bool
  done : Bool
  onSendMessage : Option Nat
  onStageComplete : Option Nat

/-- The state built by the `Impl` default constructor. -/
def initialState : ClientState :=
  { mechs := []
    supportedMechs := []
    selectedMech := none
    selectedMechName := ""
    hasUnsubDelegate := false
    done := false
    onSendMessage := none
    onStageComplete := none }

/-- Lookup by key in the registration map (`mechs.find(name)` on the
`std::map`; keys are unique, so an association-list lookup is faithful). -/
def mapFind (mechs : List (String × Mechanism)) (name : String) : Option Mechanism :=
  match mechs with
  | [] => none
  | (n, m) :: rest => if n = name then some m else mapFind rest name

/-- Insert-or-replace by key in the registration map (`mechs[name] = ...`).
The `std::map` key ordering is not modelled; no claim depends on the
iteration order of the registrations. -/
def mapInsert (mechs : List (String × Mechanism)) (name : String) (m : Mechanism) :
    List (String × Mechanism) :=
  match mechs with
  | [] => [(name, m)]
  | (n, old) :: rest =>
    if n = name then (n, m) :: rest else (n, old) :: mapInsert rest name m

/-- The loop accumulator of `SelectBestSupportedMechanism`: the fields
`selectedMechName`/`selectedMech` of the impl plus the local
`selectedRank`. -/
structure SelAcc where
  selectedMechName : String
  selectedMech : Option MechImpl
  selectedRank : Int

/-- One iteration body of the selection loop, for a supported name that
has a registration: take it when nothing is selected yet or its rank
strictly exceeds the current selected rank. -/
def selectStep (acc : SelAcc) (name : String) (m : Mechanism) : SelAcc :=
  if acc.selectedMech.isNone ∨ m.rank > acc.selectedRank then
    { selectedMechName := name, selectedMech := some m.impl, selectedRank := m.rank }
  else acc

/-- The `for (const auto& supportedMech: supportedMechs)` loop of
`SelectBestSupportedMechanism`, skipping names with no registration. -/
def selectLoop (mechs : List (String × Mechanism)) :
    List String → SelAcc → SelAcc
  | [], acc => acc
  | name :: rest, acc =>
    match mapFind mechs name with
    | none => selectLoop mechs rest acc
    | some m => selectLoop mechs rest (selectStep acc name m)

/-- `Client::Impl::SelectBestSupportedMechanism`: cancel any active
diagnostics forwarding, run the loop from a null selection (the local
`selectedRank` starts at 0), and subscribe to the newly selected
mechanism's diagnostics if one was selected. -/
def SelectBestSupportedMechanism (st : ClientState) : ClientState × List Event :=
  let evs := if st.hasUnsubDelegate then [Event.unsubscribeDiag] else []
  let acc := selectLoop st.mechs st.supportedMechs
    { selectedMechName := st.selectedMechName, selectedMech := none, selectedRank := 0 }
  let st1 := { st with
    selectedMechName := acc.selectedMechName
    selectedMech := acc.selectedMech }
  match acc.selectedMech with
  | some mech => ({ st1 with hasUnsubDelegate := true }, evs ++ [Event.subscribeDiag mech.id])
  | none => (st1, evs)

/-- `Client::Register`: insert or replace the entry for the name. -/
def Register (st : ClientState) (mechName : String) (rank : Int) (mechImpl : MechImpl) :
    ClientState :=
  { st with mechs := mapInsert st.mechs mechName { impl := mechImpl, rank := rank } }

/-- `Client::SetCredentials`: forward the credentials to every
registered mechanism. -/
def SetCredentials (st : ClientState)
    (credentials authenticationIdentity authorizationIdentity : String) :
    ClientState × List Event :=
  (st, st.mechs.map fun p =>
    Event.mechSetCredentials p.2.impl.id credentials authenticationIdentity authorizationIdentity)

/-- Splitting helper over the character list: cut a new token at every
space. -/
def splitChars : List Char → List Char → List String
  | [], acc => [String.mk acc.reverse]
  | c :: rest, acc =>
    if c = ' ' then String.mk acc.reverse :: splitChars rest []
    else splitChars rest (c :: acc)

/-- Modelled from the spec: `StringExtensions::Split` is code of an
external library; per the spec it splits the capability string on
single-space boundaries into tokens. -/
def splitOnSpace (s : String) : List String :=
  splitChars s.data []

/-- `Client::Configure`: split the parameter string on spaces into the
supported-mechanism list (`StringExtensions::Split(parameters, ' ')`). -/
def Configure (st : ClientState) (parameters : String) : ClientState :=
  { st with supportedMechs := splitOnSpace parameters }

/-- `Client::Reset`: reset every registered mechanism and clear `done`. -/
def Reset (st : ClientState) : ClientState × List Event :=
  ({ st with done := false }, st.mechs.map fun p => Event.mechReset p.2.impl.id)

/-- `Client::IsExtraProtocolStageNeededHere`: false immediately when
`done` is set or the stage is not `ReadyToSend`; otherwise refresh the
selection and report whether a mechanism was selected. -/
def IsExtraProtocolStageNeededHere (st : ClientState) (context : MessageContext) :
    ClientState × List Event × Bool :=
  if st.done = true ∨ context.protocolStage ≠ ProtocolStage.readyToSend then
    (st, [], false)
  else
    ((SelectBestSupportedMechanism st).1,
     (SelectBestSupportedMechanism st).2,
     (SelectBestSupportedMechanism st).1.selectedMech.isSome)

/-- `Client::GoAhead`: store both callbacks, then build and send the
AUTH command line.  Dereferencing a null `selectedMech` is undefined
behaviour in the C++ and yields `none` here. -/
def GoAhead (enc : String → String) (st : ClientState)
    (onSendMessage onStageComplete : Nat) : Option (ClientState × List Event) :=
  let st1 := { st with
    onSendMessage := some onSendMessage
    onStageComplete := some onStageComplete }
  match st1.selectedMech with
  | none => none
  | some mech =>
    let initialResponse := mech.getInitialResponse
    let line := "AUTH " ++ st1.selectedMechName ++
      (if initialResponse.isEmpty then "" else " " ++ enc initialResponse) ++ "\r\n"
    some (st1, [Event.sendMessage line])

/-- The diagnostic text produced by the format string `"S: %d%c%s"`
with the code, a space (last) or dash (not last), and the text. -/
def logLine (code : Int) (last : Bool) (text : String) : String :=
  "S: " ++ toString code ++ (if last then " " else "-") ++ text

/-- `Client::HandleServerMessage`: 235 logs and completes with success;
334 decodes the challenge, logs it, runs the selected mechanism's
`Proceed` and sends the base64 of its response; any other code logs a
warning and returns false.  Calling an empty `std::function` or
dereferencing a null `selectedMech` is a C++ failure, modelled as
`none`. -/
def HandleServerMessage (enc dec : String → String) (st : ClientState)
    (context : MessageContext) (message : ParsedMessage) :
    Option (ClientState × List Event × Bool) :=
  if message.code = 235 then
    match st.onStageComplete with
    | none => none
    | some _ =>
      some ({ st with done := true },
        [Event.diag 0 (logLine message.code message.last message.text),
         Event.stageComplete true],
        true)
  else if message.code = 334 then
    match st.selectedMech, st.onSendMessage with
    | some mech, some _ =>
      some (st,
        [Event.diag 0 (logLine message.code message.last (dec message.text)),
         Event.mechProceed mech.id (dec message.text),
         Event.sendMessage (enc (mech.proceed (dec message.text)) ++ "\r\n")],
        true)
    | _, _ => none
  else
    some (st,
      [Event.diag DiagWarningLevel (logLine message.code message.last message.text)],
      false)

/-- The operations of the extension's public interface. -/
inductive Op where
  | register (mechName : String) (rank : Int) (mechImpl : MechImpl)
  | setCredentials (credentials authenticationIdentity authorizationIdentity : String)
  | configure (parameters : String)
  | reset
  | isNeeded (context : MessageContext)
  | goAhead (onSendMessage onStageComplete : Nat)
  | handleMsg (context : MessageContext) (message : ParsedMessage)

/-- One interface call: the state after it and the events it emitted
(return values are dropped; `none` is a C++ failure). -/
def step (enc dec : String → String) (st : ClientState) :
    Op → Option (ClientState × List Event)
  | .register n r i => some (Register st n r i, [])
  | .setCredentials c a z => some (SetCredentials st c a z)
  | .configure p => some (Configure st p, [])
  | .reset => some (Reset st)
  | .isNeeded context =>
    some ((IsExtraProtocolStageNeededHere st context).1,
      (IsExtraProtocolStageNeededHere st context).2.1)
  | .goAhead s c => GoAhead enc st s c
  | .handleMsg context message =>
    (HandleServerMessage enc dec st context message).map fun r => (r.1, r.2.1)

/-- Run a sequence of interface calls, accumulating the event trace. -/
def run (enc dec : String → String) : ClientState → List Op → Option (ClientState × List Event)
  | st, [] => some (st, [])
  | st, op :: ops =>
    match step enc dec st op with
    | none => none
    | some (st1, evs) =>
      match run enc dec st1 ops with
      | none => none
      | some (st2, evs2) => some (st2, evs ++ evs2)

/-- Recognizer for completion-callback invocations in a trace. -/
def isStageCompleteEvent : Event → Bool
  | Event.stageComplete _ => true
  | _ => false

/-- Number of completion-callback invocations in a trace. -/
def countStageComplete (evs : List Event) : Nat :=
  evs.countP isStageCompleteEvent

/-- The subsequence of the advertised names that have a registration,
paired with their registrations, in advertised order. -/
def matchesOf (mechs : List (String × Mechanism)) (names : List String) :
    List (String × Mechanism) :=
  names.filterMap fun n => (mapFind mechs n).map fun m => (n, m)

/-- The selection loop restricted to the registered matches. -/
def selectFold (acc : SelAcc) (l : List (String × Mechanism)) : SelAcc :=
  l.foldl (fun a p => selectStep a p.1 p.2) acc

theorem matchesOf_nil (mechs : List (String × Mechanism)) : matchesOf mechs [] = [] := rfl

theorem matchesOf_cons (mechs : List (String × Mechanism)) (n : String) (ns : List String) :
    matchesOf mechs (n :: ns) =
      (match mapFind mechs n with
        | none => matchesOf mechs ns
        | some m => (n, m) :: matchesOf mechs ns) := by
  cases h : mapFind mechs n <;> simp [matchesOf, List.filterMap_cons, h]

/-- The selection loop ignores unregistered names: it is the fold of
`selectStep` over the registered matches. -/
theorem selectLoop_eq_selectFold (mechs : List (String × Mechanism)) :
    ∀ (names : List String) (acc : SelAcc),
      selectLoop mechs names acc = selectFold acc (matchesOf mechs names)
  | [], acc => rfl
  | n :: ns, acc => by
    rw [matchesOf_cons]
    cases h : mapFind mechs n with
    | none =>
      simp only [selectLoop, h]
      exact selectLoop_eq_selectFold mechs ns acc
    | some m =>
      simp only [selectLoop, h, selectFold, List.foldl_cons]
      exact selectLoop_eq_selectFold mechs ns (selectStep acc n m)

/-- Once something is selected, candidates that do not strictly exceed
the selected rank never displace it. -/
theorem selectFold_stay :
    ∀ (l : List (String × Mechanism)) (n : String) (i : MechImpl) (r : Int),
      (∀ y ∈ l, y.2.rank ≤ r) →
      selectFold { selectedMechName := n, selectedMech := some i, selectedRank := r } l =
        { selectedMechName := n, selectedMech := some i, selectedRank := r }
  | [], _, _, _, _ => rfl
  | z :: rest, n, i, r, h => by
    have hz : z.2.rank ≤ r := h z (List.mem_cons_self z rest)
    have hstep : selectStep
        { selectedMechName := n, selectedMech := some i, selectedRank := r } z.1 z.2 =
        { selectedMechName := n, selectedMech := some i, selectedRank := r } := by
      simp [selectStep]
      omega
    simp only [selectFold, List.foldl_cons] at *
    rw [hstep]
    exact selectFold_stay rest n i r (fun y hy => h y (List.mem_cons_of_mem z hy))

/-- When some candidate strictly exceeds the selected rank, the fold
lands on the earliest candidate of maximal rank among those. -/
theorem selectFold_climb :
    ∀ (l : List (String × Mechanism)) (n : String) (i : MechImpl) (r : Int),
      (∃ y ∈ l, r < y.2.rank) →
      ∃ x l1 l2, l = l1 ++ x :: l2 ∧
        selectFold { selectedMechName := n, selectedMech := some i, selectedRank := r } l =
          { selectedMechName := x.1, selectedMech := some x.2.impl, selectedRank := x.2.rank } ∧
        r < x.2.rank ∧ (∀ y ∈ l1, y.2.rank < x.2.rank) ∧ (∀ y ∈ l2, y.2.rank ≤ x.2.rank)
  | [], _, _, _, h => by simp at h
  | z :: rest, n, i, r, h => by
    by_cases hz : r < z.2.rank
    · have hstep : selectStep
          { selectedMechName := n, selectedMech := some i, selectedRank := r } z.1 z.2 =
          { selectedMechName := z.1, selectedMech := some z.2.impl, selectedRank := z.2.rank } := by
        simp [selectStep]
        omega
      by_cases hrest : ∃ y ∈ rest, z.2.rank < y.2.rank
      · obtain ⟨x, l1, l2, hsplit, hfold, hlt, hl1, hl2⟩ :=
          selectFold_climb rest z.1 z.2.impl z.2.rank hrest
        refine ⟨x, z :: l1, l2, by rw [hsplit]; rfl, ?_, lt_trans hz hlt, ?_, hl2⟩
        · simp only [selectFold, List.foldl_cons]
          rw [hstep]
          exact hfold
        · intro y hy
          rcases List.mem_cons.mp hy with hy | hy
          · rw [hy]; exact hlt
          · exact hl1 y hy
      · push_neg at hrest
        refine ⟨z, [], rest, rfl, ?_, hz, by simp, hrest⟩
        simp only [selectFold, List.foldl_cons]
        rw [hstep]
        exact selectFold_stay rest z.1 z.2.impl z.2.rank hrest
    · have hstep : selectStep
          { selectedMechName := n, selectedMech := some i, selectedRank := r } z.1 z.2 =
          { selectedMechName := n, selectedMech := some i, selectedRank := r } := by
        simp [selectStep]
        omega
      have hrest : ∃ y ∈ rest, r < y.2.rank := by
        obtain ⟨y, hy, hry⟩ := h
        rcases List.mem_cons.mp hy with hy | hy
        · exact absurd (hy ▸ hry) hz
        · exact ⟨y, hy, hry⟩
      obtain ⟨x, l1, l2, hsplit, hfold, hlt, hl1, hl2⟩ := selectFold_climb rest n i r hrest
      refine ⟨x, z :: l1, l2, by rw [hsplit]; rfl, ?_, hlt, ?_, hl2⟩
      · simp only [selectFold, List.foldl_cons]
        rw [hstep]
        exact hfold
      · intro y hy
        rcases List.mem_cons.mp hy with hy | hy
        · rw [hy]; omega
        · exact hl1 y hy

/-- Starting from a null selection on a nonempty match list, the fold
lands on the earliest match of maximal rank. -/
theorem selectFold_none (l : List (String × Mechanism)) (n : String) (r : Int)
    (h : l ≠ []) :
    ∃ x l1 l2, l = l1 ++ x :: l2 ∧
      selectFold { selectedMechName := n, selectedMech := none, selectedRank := r } l =
        { selectedMechName := x.1, selectedMech := some x.2.impl, selectedRank := x.2.rank } ∧
      (∀ y ∈ l1, y.2.rank < x.2.rank) ∧ (∀ y ∈ l2, y.2.rank ≤ x.2.rank) := by
  match l with
  | [] => exact absurd rfl h
  | z :: rest =>
    have hstep : selectStep
        { selectedMechName := n, selectedMech := none, selectedRank := r } z.1 z.2 =
        { selectedMechName := z.1, selectedMech := some z.2.impl, selectedRank := z.2.rank } := by
      simp [selectStep]
    by_cases hrest : ∃ y ∈ rest, z.2.rank < y.2.rank
    · obtain ⟨x, l1, l2, hsplit, hfold, hlt, hl1, hl2⟩ :=
        selectFold_climb rest z.1 z.2.impl z.2.rank hrest
      refine ⟨x, z :: l1, l2, by rw [hsplit]; rfl, ?_, ?_, hl2⟩
      · simp only [selectFold, List.foldl_cons]
        rw [hstep]
        exact hfold
      · intro y hy
        rcases List.mem_cons.mp hy with hy | hy
        · rw [hy]; exact hlt
        · exact hl1 y hy
    · push_neg at hrest
      refine ⟨z, [], rest, rfl, ?_, by simp, hrest⟩
      simp only [selectFold, List.foldl_cons]
      rw [hstep]
      exact selectFold_stay rest z.1 z.2.impl z.2.rank hrest

/-- The selection and name fields produced by
`SelectBestSupportedMechanism` are those computed by the loop. -/
theorem selectBest_fields (st : ClientState) :
    (SelectBestSupportedMechanism st).1.selectedMech =
      (selectLoop st.mechs st.supportedMechs
        { selectedMechName := st.selectedMechName, selectedMech := none,
          selectedRank := 0 }).selectedMech ∧
    (SelectBestSupportedMechanism st).1.selectedMechName =
      (selectLoop st.mechs st.supportedMechs
        { selectedMechName := st.selectedMechName, selectedMech := none,
          selectedRank := 0 }).selectedMechName := by
  unfold SelectBestSupportedMechanism
  cases h : (selectLoop st.mechs st.supportedMechs
      { selectedMechName := st.selectedMechName, selectedMech := none,
        selectedRank := 0 }).selectedMech <;> simp [h]

/-- Concrete mechanism fixtures for witnesses (mirroring the mocks of
the unit tests). -/
def fooImpl : MechImpl :=
  { id := 1, getInitialResponse := "PogChamp", proceed := fun _ => "LetMeIn" }

def barImpl : MechImpl :=
  { id := 2, getInitialResponse := "FeelsBadMan", proceed := fun _ => "LetMeIn" }

def readyContext : MessageContext := { protocolStage := ProtocolStage.readyToSend }

def greetingContext : MessageContext := { protocolStage := ProtocolStage.greeting }

/-- A state with two equally ranked registrations, both advertised. -/
def tieState : ClientState :=
  { initialState with
    mechs := [("BAR", { impl := barImpl, rank := 1 }), ("FOO", { impl := fooImpl, rank := 1 })]
    supportedMechs := ["FOO", "BAR"] }

/-- C1: `SelectBestSupportedMechanism` iterates the advertised list in
order: when no advertised name has a registration it selects no
mechanism, and otherwise the selected mechanism is the registered match
that advertised earliest among those of maximal rank — every earlier
match has a strictly smaller rank and no later match has a greater one —
for arbitrary `Int` ranks including zero and negative. -/
theorem selectBest_first_of_max_rank (st : ClientState) :
    (matchesOf st.mechs st.supportedMechs = [] →
      (SelectBestSupportedMechanism st).1.selectedMech = none) ∧
    (matchesOf st.mechs st.supportedMechs ≠ [] →
      ∃ x l1 l2, matchesOf st.mechs st.supportedMechs = l1 ++ x :: l2 ∧
        (SelectBestSupportedMechanism st).1.selectedMech = some x.2.impl ∧
        (SelectBestSupportedMechanism st).1.selectedMechName = x.1 ∧
        (∀ y ∈ l1, y.2.rank < x.2.rank) ∧ (∀ y ∈ l2, y.2.rank ≤ x.2.rank)) := by
  obtain ⟨hm, hn⟩ := selectBest_fields st
  rw [selectLoop_eq_selectFold] at hm hn
  constructor
  · intro h
    rw [h] at hm
    simpa [selectFold] using hm
  · intro h
    obtain ⟨x, l1, l2, hsplit, hfold, hl1, hl2⟩ :=
      selectFold_none (matchesOf st.mechs st.supportedMechs) st.selectedMechName 0 h
    refine ⟨x, l1, l2, hsplit, ?_, ?_, hl1, hl2⟩
    · rw [hm, hfold]
    · rw [hn, hfold]

/-- Witness for C1 on the tie-break fixture: both registered mechanisms
are advertised with equal rank and the earliest advertised (`FOO`) wins. -/
theorem selectBest_first_of_max_rank_witness :
    matchesOf tieState.mechs tieState.supportedMechs ≠ [] ∧
    ∃ x l1 l2, matchesOf tieState.mechs tieState.supportedMechs = l1 ++ x :: l2 ∧
      (SelectBestSupportedMechanism tieState).1.selectedMech = some x.2.impl ∧
      (SelectBestSupportedMechanism tieState).1.selectedMechName = x.1 ∧
      (∀ y ∈ l1, y.2.rank < x.2.rank) ∧ (∀ y ∈ l2, y.2.rank ≤ x.2.rank) := by
  have hne : matchesOf tieState.mechs tieState.supportedMechs ≠ [] := by
    have : matchesOf tieState.mechs tieState.supportedMechs =
        [("FOO", { impl := fooImpl, rank := 1 }), ("BAR", { impl := barImpl, rank := 1 })] := rfl
    rw [this]
    simp
  exact ⟨hne, (selectBest_first_of_max_rank tieState).2 hne⟩

/-- Evaluation check for the tie-break fixture: `FOO` (first advertised)
is selected even though `BAR` has equal rank. -/
theorem selectBest_tie_picks_first :
    (SelectBestSupportedMechanism tieState).1.selectedMechName = "FOO" ∧
    (SelectBestSupportedMechanism tieState).1.selectedMech = some fooImpl := by
  constructor <;> rfl

/-- C2: `IsExtraProtocolStageNeededHere` returns false immediately, with
no state change and no events, when `done` is set or the stage is not
`ReadyToSend`; otherwise it runs the selection and returns true exactly
when a mechanism was selected. -/
theorem isNeeded_spec (st : ClientState) (context : MessageContext) :
    (st.done = true ∨ context.protocolStage ≠ ProtocolStage.readyToSend →
      IsExtraProtocolStageNeededHere st context = (st, [], false)) ∧
    (st.done = false → context.protocolStage = ProtocolStage.readyToSend →
      IsExtraProtocolStageNeededHere st context =
        ((SelectBestSupportedMechanism st).1,
         (SelectBestSupportedMechanism st).2,
         (SelectBestSupportedMechanism st).1.selectedMech.isSome)) := by
  constructor
  · intro h
    simp [IsExtraProtocolStageNeededHere, h]
  · intro h1 h2
    simp [IsExtraProtocolStageNeededHere, h1, h2]

/-- Witness for C2: at the greeting stage the check is false with no
side effects. -/
theorem isNeeded_spec_witness :
    IsExtraProtocolStageNeededHere tieState greetingContext = (tieState, [], false) :=
  (isNeeded_spec tieState greetingContext).1
    (Or.inr (by simp [greetingContext, ProtocolStage.readyToSend]))

/-- C3: for a currently selected mechanism, `GoAhead` stores both
callbacks and sends exactly one line: `AUTH <name>\r\n` when the initial
response is empty, and `AUTH <name> <base64(initial)>\r\n` otherwise. -/
theorem goAhead_spec (enc : String → String) (st : ClientState) (mech : MechImpl)
    (sendCb completeCb : Nat) (h : st.selectedMech = some mech) :
    (mech.getInitialResponse = "" →
      GoAhead enc st sendCb completeCb = some
        ({ st with onSendMessage := some sendCb, onStageComplete := some completeCb },
         [Event.sendMessage ("AUTH " ++ st.selectedMechName ++ "\r\n")])) ∧
    (mech.getInitialResponse ≠ "" →
      GoAhead enc st sendCb completeCb = some
        ({ st with onSendMessage := some sendCb, onStageComplete := some completeCb },
         [Event.sendMessage
           ("AUTH " ++ st.selectedMechName ++ " " ++ enc mech.getInitialResponse ++ "\r\n")])) := by
  constructor
  · intro hr
    simp [GoAhead, h, String.isEmpty_iff, hr]
  · intro hr
    simp [GoAhead, h, String.isEmpty_iff, hr, String.append_assoc]

/-- The state after selection on the tie-break fixture, used to witness
the hand-off and response-handling claims. -/
def selectedState : ClientState := (SelectBestSupportedMechanism tieState).1

/-- Witness for C3: after selecting `FOO` (initial response
`"PogChamp"`), `GoAhead` sends `AUTH FOO <enc("PogChamp")>\r\n` with the
identity function standing in for the abstract base64 encoder. -/
theorem goAhead_spec_witness :
    GoAhead (fun s => s) selectedState 1 2 = some
      ({ selectedState with onSendMessage := some 1, onStageComplete := some 2 },
       [Event.sendMessage ("AUTH " ++ selectedState.selectedMechName ++ " " ++
         (fun (s : String) => s) fooImpl.getInitialResponse ++ "\r\n")]) :=
  (goAhead_spec (fun s => s) selectedState fooImpl 1 2 rfl).2 (by decide)

/-- The state of the tie-break fixture after selection and hand-off,
with both callbacks stored. -/
def engagedState : ClientState :=
  { selectedState with onSendMessage := some 1, onStageComplete := some 2 }

/-- C4: a message with code 235 is logged at the informational level 0,
sets `done`, invokes the stored completion callback with success, and
is reported as consumed (`true`). -/
theorem handle235_spec (enc dec : String → String) (st : ClientState)
    (context : MessageContext) (message : ParsedMessage) (cb : Nat)
    (hcode : message.code = 235) (hcb : st.onStageComplete = some cb) :
    HandleServerMessage enc dec st context message = some
      ({ st with done := true },
       [Event.diag 0 (logLine message.code message.last message.text),
        Event.stageComplete true],
       true) := by
  simp [HandleServerMessage, hcode, hcb]

/-- Witness for C4: a 235 response on the engaged fixture completes
with success. -/
theorem handle235_spec_witness :
    HandleServerMessage (fun s => s) (fun s => s) engagedState readyContext
      { code := 235, text := "authenticated", last := true } = some
      ({ engagedState with done := true },
       [Event.diag 0 (logLine 235 true "authenticated"),
        Event.stageComplete true],
       true) :=
  handle235_spec (fun s => s) (fun s => s) engagedState readyContext
    { code := 235, text := "authenticated", last := true } 2 rfl rfl

/-- C5: a message with code 334 is base64-decoded, the decoded
challenge is logged at the informational level 0 and handed to the
selected mechanism's `Proceed`, the base64 of the mechanism's response
plus the line terminator is sent via the stored send callback, the
state (in particular `done`) is unchanged, no completion callback
fires, and the message is reported as consumed (`true`). -/
theorem handle334_spec (enc dec : String → String) (st : ClientState)
    (context : MessageContext) (message : ParsedMessage) (mech : MechImpl) (cb : Nat)
    (hcode : message.code = 334) (hmech : st.selectedMech = some mech)
    (hcb : st.onSendMessage = some cb) :
    HandleServerMessage enc dec st context message = some
      (st,
       [Event.diag 0 (logLine message.code message.last (dec message.text)),
        Event.mechProceed mech.id (dec message.text),
        Event.sendMessage (enc (mech.proceed (dec message.text)) ++ "\r\n")],
       true) := by
  simp [HandleServerMessage, hcode, hmech, hcb]

/-- Witness for C5: a 334 challenge on the engaged fixture runs `FOO`'s
`Proceed` on the decoded text and sends its encoded response. -/
theorem handle334_spec_witness :
    HandleServerMessage (fun s => s) (fun s => s) engagedState readyContext
      { code := 334, text := "challenge", last := true } = some
      (engagedState,
       [Event.diag 0 (logLine 334 true "challenge"),
        Event.mechProceed fooImpl.id "challenge",
        Event.sendMessage (fooImpl.proceed "challenge" ++ "\r\n")],
       true) :=
  handle334_spec (fun s => s) (fun s => s) engagedState readyContext
    { code := 334, text := "challenge", last := true } fooImpl 1 rfl rfl rfl

/-- C6: a message whose code is neither 235 nor 334 is logged with its
raw text at the warning level, leaves the state (in particular `done`)
unchanged, invokes neither stored callback, and is reported as not
consumed (`false`). -/
theorem handleOther_spec (enc dec : String → String) (st : ClientState)
    (context : MessageContext) (message : ParsedMessage)
    (h1 : message.code ≠ 235) (h2 : message.code ≠ 334) :
    HandleServerMessage enc dec st context message = some
      (st,
       [Event.diag DiagWarningLevel (logLine message.code message.last message.text)],
       false) := by
  simp [HandleServerMessage, h1, h2]

/-- Witness for C6: a 535 rejection is logged as a warning and left to
the host engine. -/
theorem handleOther_spec_witness :
    HandleServerMessage (fun s => s) (fun s => s) engagedState readyContext
      { code := 535, text := "Go away, you smell", last := true } = some
      (engagedState,
       [Event.diag DiagWarningLevel (logLine 535 true "Go away, you smell")],
       false) :=
  handleOther_spec (fun s => s) (fun s => s) engagedState readyContext
    { code := 535, text := "Go away, you smell", last := true }
    (by decide) (by decide)

/-- The selection refresh never touches the `done` flag. -/
theorem selectBest_done (st : ClientState) :
    (SelectBestSupportedMechanism st).1.done = st.done := by
  unfold SelectBestSupportedMechanism
  cases h : (selectLoop st.mechs st.supportedMechs
      { selectedMechName := st.selectedMechName, selectedMech := none,
        selectedRank := 0 }).selectedMech <;> simp [h]

/-- C7: the `done` flag starts false; across every interface call, a
transition of `done` from false to true happens only when handling a
message with code 235, and a transition from true to false happens only
on `Reset`; and while `done` is true the applicability check returns
false for every context, with no state change and no events. -/
theorem done_lifecycle (enc dec : String → String) :
    initialState.done = false ∧
    (∀ st op st' evs, step enc dec st op = some (st', evs) →
      (st.done = false → st'.done = true →
        ∃ context message, op = Op.handleMsg context message ∧ message.code = 235) ∧
      (st.done = true → st'.done = false → op = Op.reset)) ∧
    (∀ st context, st.done = true →
      IsExtraProtocolStageNeededHere st context = (st, [], false)) := by
  refine ⟨rfl, ?_, ?_⟩
  · intro st op st' evs h
    cases op with
    | register n r i =>
      simp only [step, Option.some.injEq, Prod.mk.injEq] at h
      constructor
      · intro h0 h1
        rw [← h.1] at h1
        simp [Register] at h1
        rw [h0] at h1
        exact absurd h1 Bool.false_ne_true
      · intro h0 h1
        rw [← h.1] at h1
        simp [Register] at h1
        rw [h0] at h1
        exact absurd h1.symm Bool.false_ne_true
    | setCredentials c a z =>
      simp only [step, SetCredentials, Option.some.injEq, Prod.mk.injEq] at h
      constructor
      · intro h0 h1
        rw [← h.1, h0] at h1
        exact absurd h1 Bool.false_ne_true
      · intro h0 h1
        rw [← h.1, h0] at h1
        exact absurd h1.symm Bool.false_ne_true
    | configure p =>
      simp only [step, Option.some.injEq, Prod.mk.injEq] at h
      constructor
      · intro h0 h1
        rw [← h.1] at h1
        simp [Configure] at h1
        rw [h0] at h1
        exact absurd h1 Bool.false_ne_true
      · intro h0 h1
        rw [← h.1] at h1
        simp [Configure] at h1
        rw [h0] at h1
        exact absurd h1.symm Bool.false_ne_true
    | reset =>
      refine ⟨?_, fun _ _ => rfl⟩
      intro h0 h1
      simp only [step, Reset, Option.some.injEq, Prod.mk.injEq] at h
      rw [← h.1] at h1
      simp at h1
    | isNeeded context =>
      simp only [step, Option.some.injEq, Prod.mk.injEq] at h
      have hdone : st'.done = st.done := by
        rw [← h.1]
        unfold IsExtraProtocolStageNeededHere
        split
        · rfl
        · exact selectBest_done st
      constructor
      · intro h0 h1
        rw [hdone, h0] at h1
        exact absurd h1 Bool.false_ne_true
      · intro h0 h1
        rw [hdone, h0] at h1
        exact absurd h1.symm Bool.false_ne_true
    | goAhead s c =>
      simp only [step] at h
      unfold GoAhead at h
      have hdone : st'.done = st.done := by
        rcases hsel : st.selectedMech with _ | mech
        · simp [hsel] at h
        · simp only [hsel] at h
          simp only [Option.some.injEq, Prod.mk.injEq] at h
          rw [← h.1]
      constructor
      · intro h0 h1
        rw [hdone, h0] at h1
        exact absurd h1 Bool.false_ne_true
      · intro h0 h1
        rw [hdone, h0] at h1
        exact absurd h1.symm Bool.false_ne_true
    | handleMsg context message =>
      simp only [step] at h
      unfold HandleServerMessage at h
      by_cases h235 : message.code = 235
      · refine ⟨fun _ _ => ⟨context, message, rfl, h235⟩, ?_⟩
        intro h0 h1
        rcases hcb : st.onStageComplete with _ | cb
        · simp [h235, hcb] at h
        · simp [h235, hcb] at h
          rw [← h.1] at h1
          simp at h1
      · by_cases h334 : message.code = 334
        · have hdone : st'.done = st.done := by
            rcases hsel : st.selectedMech with _ | mech <;>
              rcases hcb : st.onSendMessage with _ | cb <;>
                simp [h235, h334, hsel, hcb] at h <;>
                  rw [← h.1]
          constructor
          · intro h0 h1
            rw [hdone, h0] at h1
            exact absurd h1 Bool.false_ne_true
          · intro h0 h1
            rw [hdone, h0] at h1
            exact absurd h1.symm Bool.false_ne_true
        · have hdone : st'.done = st.done := by
            simp [h235, h334] at h
            rw [← h.1]
          constructor
          · intro h0 h1
            rw [hdone, h0] at h1
            exact absurd h1 Bool.false_ne_true
          · intro h0 h1
            rw [hdone, h0] at h1
            exact absurd h1.symm Bool.false_ne_true
  · intro st context h
    simp [IsExtraProtocolStageNeededHere, h]

/-- Witness for C7: on a completed (done) fixture the applicability
check refuses regardless of the stage being `ReadyToSend`. -/
theorem done_lifecycle_witness :
    IsExtraProtocolStageNeededHere { engagedState with done := true } readyContext =
      ({ engagedState with done := true }, [], false) :=
  (done_lifecycle (fun s => s) (fun s => s)).2.2 { engagedState with done := true }
    readyContext rfl

/-- C8: `Reset` resets every registered mechanism and clears `done`,
leaving the registrations, the supported list, the selection fields and
both stored callbacks untouched. -/
theorem reset_spec (st : ClientState) :
    (Reset st).1 = { st with done := false } ∧
    (Reset st).2 = st.mechs.map (fun p => Event.mechReset p.2.impl.id) ∧
    (Reset st).1.mechs = st.mechs ∧
    (Reset st).1.supportedMechs = st.supportedMechs ∧
    (Reset st).1.onSendMessage = st.onSendMessage ∧
    (Reset st).1.onStageComplete = st.onStageComplete ∧
    (Reset st).1.done = false :=
  ⟨rfl, rfl, rfl, rfl, rfl, rfl, rfl⟩

theorem countStageComplete_map_reset (l : List (String × Mechanism)) :
    countStageComplete (l.map fun p => Event.mechReset p.2.impl.id) = 0 := by
  induction l with
  | nil => rfl
  | cons z rest ih =>
    simpa [countStageComplete, List.countP_cons, isStageCompleteEvent] using ih

theorem countStageComplete_map_credentials (l : List (String × Mechanism))
    (c a z : String) :
    countStageComplete (l.map fun p => Event.mechSetCredentials p.2.impl.id c a z) = 0 := by
  induction l with
  | nil => rfl
  | cons w rest ih =>
    simpa [countStageComplete, List.countP_cons, isStageCompleteEvent] using ih

theorem countStageComplete_selectBest (st : ClientState) :
    countStageComplete (SelectBestSupportedMechanism st).2 = 0 := by
  unfold SelectBestSupportedMechanism
  cases h : (selectLoop st.mechs st.supportedMechs
      { selectedMechName := st.selectedMechName, selectedMech := none,
        selectedRank := 0 }).selectedMech <;>
    cases hu : st.hasUnsubDelegate <;>
      simp [h, hu, countStageComplete, isStageCompleteEvent]

/-- The interface calls of the run that refutes the one-shot reading of
the completion callback: a successful exchange followed by a second 235
response, with no `Reset` anywhere. -/
def doubleSuccessOps : List Op :=
  [Op.register "FOO" 1 fooImpl,
   Op.configure "FOO",
   Op.isNeeded readyContext,
   Op.goAhead 1 2,
   Op.handleMsg readyContext { code := 235, text := "authenticated", last := true },
   Op.handleMsg readyContext { code := 235, text := "authenticated", last := true }]

/-- C9 counterexample: `HandleServerMessage` never consults `done`, so a
second 235 response fires the stored completion callback again — this
concrete sequence contains no `Reset` yet invokes the completion
callback twice. -/
theorem completion_twice_counterexample :
    (∀ op ∈ doubleSuccessOps, op ≠ Op.reset) ∧
    countStageComplete
      (((run (fun s => s) (fun s => s) initialState doubleSuccessOps).getD
        (initialState, [])).2) = 2 := by
  constructor
  · intro op hop
    simp only [doubleSuccessOps, List.mem_cons, List.not_mem_nil, or_false] at hop
    rcases hop with h | h | h | h | h | h <;> subst h <;> exact fun hc => Op.noConfusion hc
  · rfl

/-- C9 amended: within a single interface call the completion callback
fires at most once, and it fires exactly when the call is the handling
of a message with code 235; since `HandleServerMessage` does not guard
on `done`, each further 235 handed to it between two `Reset` calls
fires the callback once more, so the at-most-once reading holds only
for runs in which the host stops forwarding messages after completion. -/
theorem completion_per_op (enc dec : String → String) (st : ClientState) (op : Op)
    (st' : ClientState) (evs : List Event)
    (h : step enc dec st op = some (st', evs)) :
    countStageComplete evs ≤ 1 ∧
    (countStageComplete evs = 1 ↔
      ∃ context message, op = Op.handleMsg context message ∧ message.code = 235) := by
  cases op with
  | register n r i =>
    simp only [step, Option.some.injEq, Prod.mk.injEq] at h
    rw [← h.2]
    constructor
    · simp [countStageComplete]
    · simp only [countStageComplete, List.countP_nil]
      constructor
      · omega
      · rintro ⟨c, m, hc, -⟩
        exact Op.noConfusion hc
  | setCredentials c a z =>
    simp only [step, SetCredentials, Option.some.injEq, Prod.mk.injEq] at h
    rw [← h.2]
    rw [countStageComplete_map_credentials]
    constructor
    · omega
    · constructor
      · omega
      · rintro ⟨c1, m, hc, -⟩
        exact Op.noConfusion hc
  | configure p =>
    simp only [step, Option.some.injEq, Prod.mk.injEq] at h
    rw [← h.2]
    constructor
    · simp [countStageComplete]
    · simp only [countStageComplete, List.countP_nil]
      constructor
      · omega
      · rintro ⟨c, m, hc, -⟩
        exact Op.noConfusion hc
  | reset =>
    simp only [step, Reset, Option.some.injEq, Prod.mk.injEq] at h
    rw [← h.2]
    rw [countStageComplete_map_reset]
    constructor
    · omega
    · constructor
      · omega
      · rintro ⟨c, m, hc, -⟩
        exact Op.noConfusion hc
  | isNeeded context =>
    simp only [step, Option.some.injEq, Prod.mk.injEq] at h
    have hz : countStageComplete evs = 0 := by
      rw [← h.2]
      unfold IsExtraProtocolStageNeededHere
      split
      · rfl
      · exact countStageComplete_selectBest st
    rw [hz]
    constructor
    · omega
    · constructor
      · omega
      · rintro ⟨c, m, hc, -⟩
        exact Op.noConfusion hc
  | goAhead s c =>
    simp only [step] at h
    unfold GoAhead at h
    have hz : countStageComplete evs = 0 := by
      rcases hsel : st.selectedMech with _ | mech
      · simp [hsel] at h
      · simp only [hsel, Option.some.injEq, Prod.mk.injEq] at h
        rw [← h.2]
        rfl
    rw [hz]
    constructor
    · omega
    · constructor
      · omega
      · rintro ⟨c1, m, hc, -⟩
        exact Op.noConfusion hc
  | handleMsg context message =>
    simp only [step] at h
    unfold HandleServerMessage at h
    by_cases h235 : message.code = 235
    · rcases hcb : st.onStageComplete with _ | cb
      · simp [h235, hcb] at h
      · simp [h235, hcb] at h
        rw [← h.2]
        constructor
        · simp [countStageComplete, List.countP_cons, isStageCompleteEvent]
        · constructor
          · intro _
            exact ⟨context, message, rfl, h235⟩
          · intro _
            simp [countStageComplete, List.countP_cons, isStageCompleteEvent]
    · by_cases h334 : message.code = 334
      · have hz : countStageComplete evs = 0 := by
          rcases hsel : st.selectedMech with _ | mech <;>
            rcases hcb : st.onSendMessage with _ | cb <;>
              simp [h235, h334, hsel, hcb] at h
          rw [← h.2]
          simp [countStageComplete, List.countP_cons, isStageCompleteEvent]
        rw [hz]
        refine ⟨by omega, fun h01 => absurd h01 (by decide), ?_⟩
        rintro ⟨c, m, hc, hm⟩
        injection hc with hc1 hc2
        rw [← hc2] at hm
        exact absurd hm h235
      · simp [h235, h334] at h
        have hz : countStageComplete evs = 0 := by
          rw [← h.2]
          simp [countStageComplete, List.countP_cons, isStageCompleteEvent]
        rw [hz]
        refine ⟨by omega, fun h01 => absurd h01 (by decide), ?_⟩
        rintro ⟨c, m, hc, hm⟩
        injection hc with hc1 hc2
        rw [← hc2] at hm
        exact absurd hm h235

/-- Witness for the amended C9 on a concrete call: a `Reset` emits no
completion event. -/
theorem completion_per_op_witness :
    countStageComplete [] ≤ 1 ∧
    (countStageComplete [] = 1 ↔
      ∃ context message, Op.reset = Op.handleMsg context message ∧ message.code = 235) :=
  completion_per_op (fun s => s) (fun s => s) initialState Op.reset initialState [] rfl

/-- C10: `HandleServerMessage` ignores the message context — any two
contexts yield identical results, state changes and callback
invocations — and its emitted events and returned Boolean are also
independent of the `done` flag, so 235 and 334 messages are processed
even when `done` is already set or the stage is not `ReadyToSend`. -/
theorem handleMessage_context_independent (enc dec : String → String) :
    (∀ st context1 context2 message,
      HandleServerMessage enc dec st context1 message =
        HandleServerMessage enc dec st context2 message) ∧
    (∀ st context message b,
      (HandleServerMessage enc dec { st with done := b } context message).map
          (fun r => (r.2.1, r.2.2)) =
        (HandleServerMessage enc dec st context message).map (fun r => (r.2.1, r.2.2))) := by
  constructor
  · intro st c1 c2 message
    rfl
  · intro st context message b
    unfold HandleServerMessage
    by_cases h235 : message.code = 235
    · cases hcb : st.onStageComplete <;> simp [h235, hcb]
    · by_cases h334 : message.code = 334
      · cases hsel : st.selectedMech <;> cases hcb : st.onSendMessage <;>
          simp [h235, h334, hsel, hcb]
      · simp [h235, h334]

end SmtpAuth
